import Mathlib

/-!
Verification of the SINP (Semantic Intent Negotiation Protocol) implementation.

This file gives a shallow embedding, in Lean 4, of the parts of the Rust
sources that the specification's claims are about:

* `sinp-core/src/confidence.rs` — confidence composition and the decision
  function (`compute_server_confidence`, `decide_action`);
* `sinp-core/src/security.rs`   — the replay check (`check_replay`);
* `sinp-core/src/interpreter.rs` — the baseline keyword interpreter
  (`tokenize`, `capability_keywords`, `score`, `interpret`);
* `sinp-server/src/capability.rs` — the capability registry
  (`get_reliability`, `execute`, `check_policy`);
* `sinp-core/src/message.rs` and `sinp-core/src/state.rs` — the message
  data model and the server state automaton;
* `sinp-server/src/state_machine.rs` — request processing
  (`process_request`, `transition`);
* `sinp-server/src/handler.rs` — the per-frame connection loop body
  (`handle_frame` below models one iteration of `handle_stream`) and
  `create_error_response`.

Rust `f64` values are modelled as rationals (`ℚ`): every number the
protocol manipulates is produced by field access, clamping, and ratios of
small integers, so no floating-point-specific behaviour is relevant to the
claims.  Timestamps are modelled as integer milliseconds, UUIDs as natural
numbers, and `serde_json::Value` handler payloads as a small JSON tree.
-/

namespace SINP

/-! ### Core scalar model -/

/-- UUIDs are opaque identifiers; the code only ever compares and copies
them, so naturals suffice. -/
abbrev Uuid := Nat

/-- Rust strings are modelled as lists of characters, so that tokenisation
and comparisons reduce inside the kernel.  Literals are written
`"...".toList`. -/
abbrev Str := List Char

/-- Decision thresholds, from `confidence.rs` (`struct Thresholds`). -/
structure Thresholds where
  tau_exec : ℚ
  tau_clarify : ℚ
  tau_accept : ℚ
deriving DecidableEq

/-- Default thresholds (`impl Default for Thresholds`): 0.85 / 0.50 / 0.50. -/
def Thresholds.default : Thresholds :=
  { tau_exec := 85/100, tau_clarify := 50/100, tau_accept := 50/100 }

/-- Action types (`message.rs`, `enum Action`). -/
inductive Action where
  | execute
  | clarify
  | propose
  | refuse
deriving DecidableEq

/-- Refusal codes (`error.rs`, `enum RefusalCode`). -/
inductive RefusalCode where
  | malformedContext
  | privacyViolation
  | capabilityMissing
  | policyViolation
deriving DecidableEq

/-- Display form of a refusal code (`impl Display for RefusalCode`). -/
def RefusalCode.toStr : RefusalCode → Str
  | .malformedContext => ("malformed_context").toList
  | .privacyViolation => ("privacy_violation").toList
  | .capabilityMissing => ("capability_missing").toList
  | .policyViolation => ("policy_violation").toList

/-- Protocol errors (`error.rs`, `enum SinpError`).  The `Serialization`
variant carries the rendered message of the underlying serde error. -/
inductive SinpError where
  | protocol (msg : Str)
  | validation (msg : Str)
  | crypto (msg : Str)
  | transport (msg : Str)
  | serialization (msg : Str)
  | refused (code : RefusalCode) (reason : Str)
  | replayDetected (timestamp : Str)
  | signatureInvalid
deriving DecidableEq

/-- Display form of an error (the `#[error(...)]` strings on `SinpError`). -/
def SinpError.toStr : SinpError → Str
  | .protocol msg => ("protocol error: ").toList ++ msg
  | .validation msg => ("validation error: ").toList ++ msg
  | .crypto msg => ("crypto error: ").toList ++ msg
  | .transport msg => ("transport error: ").toList ++ msg
  | .serialization msg => ("serialization error: ").toList ++ msg
  | .refused code reason =>
      ("refused: ").toList ++ code.toStr ++ (" - ").toList ++ reason
  | .replayDetected timestamp =>
      ("replay attack detected: message timestamp ").toList ++ timestamp ++
        (" outside acceptable window").toList
  | .signatureInvalid => ("signature verification failed").toList

/-- Server confidence composition, from `confidence.rs`:
`if !policy_passed { return 0.0 } (rho * reliability * availability).min(1.0).max(0.0)`. -/
def compute_server_confidence (rho reliability availability : ℚ)
    (policy_passed : Bool) : ℚ :=
  if !policy_passed then 0
  else max (min (rho * reliability * availability) 1) 0

/-- Decision function, from `confidence.rs` (`decide_action`), branch for
branch: REFUSE on policy violation or malformed input, EXECUTE when both
confidences meet their thresholds, PROPOSE on a better alternative, and
CLARIFY otherwise (the final two branches of the Rust function both
return `Action::Clarify`). -/
def decide_action (phi_s phi_c : ℚ) (thresholds : Thresholds)
    (has_better_alternative policy_violated malformed : Bool) : Action :=
  if policy_violated || malformed then .refuse
  else if thresholds.tau_exec ≤ phi_s ∧ thresholds.tau_accept ≤ phi_c then .execute
  else if has_better_alternative then .propose
  else if phi_s < thresholds.tau_exec then .clarify
  else .clarify

/-- Clamp to the unit interval, written as the spec writes it
(`clamp(x, 0, 1)`: raise to at least 0, cap at 1). -/
def clamp01 (x : ℚ) : ℚ := min (max x 0) 1

/-- Default replay window (`security.rs`, `DEFAULT_REPLAY_WINDOW_MS`). -/
def DEFAULT_REPLAY_WINDOW_MS : Int := 5000

/-- Replay check, from `security.rs` (`check_replay`).  `now` is passed
explicitly where the Rust reads the wall clock; times are in integer
milliseconds. -/
def check_replay (now message_timestamp : Int) (window_ms : Option Int) :
    Except SinpError Unit :=
  let window := window_ms.getD DEFAULT_REPLAY_WINDOW_MS
  let diff := now - message_timestamp
  if |diff| > window then
    .error (.replayDetected (toString message_timestamp).toList)
  else
    .ok ()

/-! ### Claims about the confidence calculus and replay window -/

/-- C1: for every combination of inputs, `decide_action` returns REFUSE when
`policy_violated` or `malformed` is true; otherwise EXECUTE when
`phi_s ≥ tau_exec` and `phi_c ≥ tau_accept`; otherwise PROPOSE when
`has_better_alternative` is true; otherwise CLARIFY — with exact threshold
equality taking the higher-priority branch (the comparisons are `≥`,
not `>`). -/
theorem decide_action_spec (phi_s phi_c : ℚ) (thresholds : Thresholds)
    (has_better_alternative policy_violated malformed : Bool) :
    decide_action phi_s phi_c thresholds has_better_alternative
        policy_violated malformed =
      if policy_violated = true ∨ malformed = true then .refuse
      else if thresholds.tau_exec ≤ phi_s ∧ thresholds.tau_accept ≤ phi_c then .execute
      else if has_better_alternative = true then .propose
      else .clarify := by
  cases policy_violated <;> cases malformed <;> cases has_better_alternative <;>
    by_cases h1 : thresholds.tau_exec ≤ phi_s ∧ thresholds.tau_accept ≤ phi_c <;>
      by_cases h2 : phi_s < thresholds.tau_exec <;>
        simp [decide_action, h1, h2]

/-- C2: for every `rho`, `reliability`, `availability`,
`compute_server_confidence` returns `clamp(ρ · R · A, 0, 1)` when the policy
passes and exactly 0 when the policy fails, regardless of the other
arguments. -/
theorem compute_server_confidence_spec (rho reliability availability : ℚ) :
    compute_server_confidence rho reliability availability true =
      clamp01 (rho * reliability * availability) ∧
    compute_server_confidence rho reliability availability false = 0 := by
  constructor
  · show max (min (rho * reliability * availability) 1) 0 =
      min (max (rho * reliability * availability) 0) 1
    rcases le_total (rho * reliability * availability) 0 with h | h <;>
      rcases le_total (rho * reliability * availability) 1 with h1 | h1 <;>
        simp [min_def, max_def] <;> split_ifs <;> linarith
  · simp [compute_server_confidence]

/-- C10: for every input — even when `rho`, `reliability` or `availability`
lie outside `[0,1]`, including negative values — the value returned by
`compute_server_confidence` lies in `[0,1]`; no precondition on the
arguments is needed. -/
theorem server_confidence_in_unit_interval (rho reliability availability : ℚ)
    (policy_passed : Bool) :
    0 ≤ compute_server_confidence rho reliability availability policy_passed ∧
      compute_server_confidence rho reliability availability policy_passed ≤ 1 := by
  cases policy_passed
  · simp [compute_server_confidence]
  · refine ⟨?_, ?_⟩
    · show (0 : ℚ) ≤ max (min (rho * reliability * availability) 1) 0
      exact le_max_right _ _
    · show max (min (rho * reliability * availability) 1) 0 ≤ 1
      exact max_le (min_le_right _ _) (by norm_num)

/-- C7: the replay check accepts a message whose timestamp satisfies
`|now − timestamp| ≤ W` (in particular one at exactly `now − W`) and rejects
with a replay error whenever `|now − timestamp| > W`, symmetrically for
future timestamps, with default window `W = 5000` ms when none is
configured. -/
theorem check_replay_spec (now ts w : Int) :
    (check_replay now ts (some w) = .ok () ↔ |now - ts| ≤ w) ∧
    ((∃ s, check_replay now ts (some w) = .error (.replayDetected s)) ↔
      w < |now - ts|) ∧
    check_replay now ts none = check_replay now ts (some 5000) := by
  have key : ∀ wi : Int,
      (if |now - ts| > wi then
          (Except.error (SinpError.replayDetected (toString ts).toList) :
            Except SinpError Unit)
        else .ok ()) = check_replay now ts (some wi) := fun _ => rfl
  refine ⟨?_, ?_, rfl⟩
  · rw [← key w]
    by_cases h : w < |now - ts|
    · simp [h, not_le.mpr h]
    · simp [h, not_lt.mp h]
  · rw [← key w]
    by_cases h : w < |now - ts|
    · simp [h]
    · simp [h]

/-! ### Baseline keyword interpreter (`interpreter.rs`) -/

/-- Split a character list at every character satisfying `p`, keeping empty
pieces, with the semantics of Rust's `str::split` on a `char` predicate
(the splitter characters are dropped; `n` separators yield `n + 1`
pieces). -/
def splitP (p : Char → Bool) : List Char → List (List Char)
  | [] => [[]]
  | c :: rest =>
    if p c then [] :: splitP p rest
    else
      match splitP p rest with
      | [] => [[c]]
      | t :: ts => (c :: t) :: ts

/-- Tokenisation (`KeywordInterpreter::tokenize`): lowercase, split on
every non-alphanumeric character, and drop the empty pieces.  ASCII
lowercasing and the ASCII alphanumeric class agree with the Rust Unicode
versions on all the inputs considered here. -/
def tokenize (text : Str) : List Str :=
  (splitP (fun c => !c.isAlphanum) (text.map Char.toLower)).filter
    (fun s => !s.isEmpty)

/-- Context type (`message.rs`, `enum ContextType`). -/
inductive ContextType where
  | transcript
  | summary
  | structured
deriving DecidableEq

/-- Conversation context (`message.rs`, `struct Context`). -/
structure Context where
  context_type : ContextType
  content : Str
  semantic_hash : Str
deriving DecidableEq

/-- Server capability definition (`message.rs`, `struct Capability`). -/
structure Capability where
  id : Str
  description : Str
  inputs : List Str
  privacy_level : Str
  cost_units : ℚ
deriving DecidableEq

/-- Keyword extraction (`KeywordInterpreter::capability_keywords`): the
tokens of the description, then of each input in order, then of the
capability id — duplicates included. -/
def capability_keywords (cap : Capability) : List Str :=
  tokenize cap.description ++ (cap.inputs.map tokenize).flatten ++
    tokenize cap.id

/-- Baseline interpreter parameters (`struct KeywordInterpreter`). -/
structure KeywordInterpreter where
  match_weight : ℚ
  min_score : ℚ
deriving DecidableEq

/-- Defaults (`impl Default for KeywordInterpreter`): weight 1.0,
minimum score 0.2. -/
def KeywordInterpreter.default : KeywordInterpreter :=
  { match_weight := 1, min_score := 1/5 }

/-- Scoring (`KeywordInterpreter::score`): the number of entries of the
keyword list that occur among the intent tokens, divided by the length of
the keyword list, times the match weight; 0 when the list is empty. -/
def KeywordInterpreter.score (self : KeywordInterpreter)
    (intent_tokens : List Str) (cap : Capability) : ℚ :=
  let cap_keywords := capability_keywords cap
  if cap_keywords.isEmpty then 0
  else
    (((cap_keywords.filter (fun k => intent_tokens.contains k)).length : ℚ) /
        (cap_keywords.length : ℚ)) * self.match_weight

/-- Score as claim C4 states it: the number of *distinct* capability tokens
occurring among the intent tokens divided by the cardinality of the *set*
of capability tokens (`|K_c|`), times the weight; 0 when `K_c` is empty.
This definition follows the claim's words and is compared against the
implementation's `KeywordInterpreter.score`. -/
def score_set_spec (w : ℚ) (intent_tokens : List Str) (cap : Capability) : ℚ :=
  let ks := (capability_keywords cap).dedup
  if ks.isEmpty then 0
  else
    (((ks.filter (fun k => intent_tokens.contains k)).length : ℚ) /
        (ks.length : ℚ)) * w

/-- A capability whose token list contains the token "alpha" twice:
description "alpha alpha beta", no inputs, id "x". -/
def exampleDupCap : Capability :=
  { id := ("x").toList
    description := ("alpha alpha beta").toList
    inputs := []
    privacy_level := ("public").toList
    cost_units := 1 }

/-- C4 counterexample: with the default weight 1.0, the implementation
scores `exampleDupCap` against the intent "alpha" as 2/4 (both copies of
"alpha" in the four-element keyword list match), while the set-based
formula of the claim gives 1/3 (one of the three distinct tokens matches).
The claim is therefore false on the code at this input. -/
theorem score_set_counterexample :
    KeywordInterpreter.score ⟨1, 1/5⟩ (tokenize ("alpha").toList)
        exampleDupCap = 1/2 ∧
    score_set_spec 1 (tokenize ("alpha").toList) exampleDupCap = 1/3 ∧
    KeywordInterpreter.score ⟨1, 1/5⟩ (tokenize ("alpha").toList)
        exampleDupCap ≠
      score_set_spec 1 (tokenize ("alpha").toList) exampleDupCap := by
  have hfilter : (capability_keywords exampleDupCap).filter
      (fun k => (tokenize ("alpha").toList).contains k) =
      [("alpha").toList, ("alpha").toList] := by decide
  have hall : capability_keywords exampleDupCap =
      [("alpha").toList, ("alpha").toList, ("beta").toList, ("x").toList] := by
    decide
  have hdedup : (capability_keywords exampleDupCap).dedup =
      [("alpha").toList, ("beta").toList, ("x").toList] := by decide
  have hdfilter : ((capability_keywords exampleDupCap).dedup).filter
      (fun k => (tokenize ("alpha").toList).contains k) =
      [("alpha").toList] := by decide
  have h1 : KeywordInterpreter.score ⟨1, 1/5⟩ (tokenize ("alpha").toList)
      exampleDupCap = 1/2 := by
    rw [KeywordInterpreter.score]
    rw [hfilter, hall]
    norm_num
  have h2 : score_set_spec 1 (tokenize ("alpha").toList) exampleDupCap
      = 1/3 := by
    rw [score_set_spec]
    rw [hdfilter, hdedup]
    norm_num
  refine ⟨h1, h2, ?_⟩
  rw [h1, h2]
  norm_num

/-- C4 (amended): the baseline keyword score counts matching entries of
the capability's keyword *list* — duplicates counted on both sides of the
ratio — divided by the list's length, times `match_weight` (which defaults
to 1.0); the score is 0 when the keyword list is empty. -/
theorem score_multiset_spec (self : KeywordInterpreter)
    (intent_tokens : List Str) (cap : Capability) :
    (KeywordInterpreter.score self intent_tokens cap =
      if capability_keywords cap = [] then 0
      else
        (((capability_keywords cap).countP
              (fun k => intent_tokens.contains k) : ℚ) /
            ((capability_keywords cap).length : ℚ)) * self.match_weight) ∧
    KeywordInterpreter.default.match_weight = 1 := by
  refine ⟨?_, rfl⟩
  rw [KeywordInterpreter.score]
  rw [List.countP_eq_length_filter]
  rcases h : capability_keywords cap with _ | ⟨k, ks⟩ <;> simp [h]

/-! ### Interpretation results and ranking (`KeywordInterpreter::interpret`) -/

/-- An alternative interpretation (`struct AlternativeInterpretation`). -/
structure AlternativeInterpretation where
  interpretation : Str
  capability : Capability
  confidence : ℚ
deriving DecidableEq

/-- Result of the interpretation function (`struct InterpretationResult`). -/
structure InterpretationResult where
  interpretation : Str
  capability : Option Capability
  raw_confidence : ℚ
  alternatives : List AlternativeInterpretation
deriving DecidableEq

/-- Comparator used to sort scored capabilities: `a` may precede `b` when
`a`'s score is at least `b`'s.  A stable sort with this total preorder is
exactly what `sort_by(|a, b| b.0.partial-compare(a.0))` performs on a
slice in Rust (descending by score, ties kept in input order); scores are
never NaN here, so the `unwrap_or(Equal)` branch is irrelevant. -/
def scoreGE (a b : ℚ × Capability) : Prop := b.1 ≤ a.1

instance : DecidableRel scoreGE := fun a b =>
  inferInstanceAs (Decidable (b.1 ≤ a.1))

instance : IsTotal (ℚ × Capability) scoreGE := ⟨fun a b => le_total b.1 a.1⟩

instance : IsTrans (ℚ × Capability) scoreGE :=
  ⟨fun _ _ _ h1 h2 => le_trans h2 h1⟩

/-- Conversion of a scored capability into an advertised alternative
(the closure inside `interpret` building `AlternativeInterpretation`). -/
def mkAlternative (p : ℚ × Capability) : AlternativeInterpretation :=
  { interpretation := ("Use ").toList ++ p.2.id ++ (" capability").toList
    capability := p.2
    confidence := p.1 }

/-- Every capability paired with its score against the intent (the
`scores` vector built at the top of `interpret`). -/
def scored (self : KeywordInterpreter) (intent : Str)
    (capabilities : List Capability) : List (ℚ × Capability) :=
  capabilities.map (fun cap => (self.score (tokenize intent) cap, cap))

/-- The baseline interpreter (`impl Interpreter for KeywordInterpreter`):
score every capability, sort stably by score descending, select the head
if it reaches `min_score`, and expose the next up-to-three entries at or
above `min_score` as alternatives. -/
def KeywordInterpreter.interpret (self : KeywordInterpreter) (intent : Str)
    (_context : Context) (capabilities : List Capability) :
    InterpretationResult :=
  let sorted := List.insertionSort scoreGE (scored self intent capabilities)
  let best : ℚ × Option Capability :=
    match sorted.head? with
    | some (sc, cap) =>
        if self.min_score ≤ sc then (sc, some cap) else (sc, none)
    | none => ((0 : ℚ), none)
  let alternatives := (((sorted.drop 1).take 3).filter
      (fun p => decide (self.min_score ≤ p.1))).map mkAlternative
  { interpretation :=
      match best.2 with
      | some c => ("Execute ").toList ++ c.id ++ (" for: ").toList ++ intent
      | none => ("No matching capability found").toList
    capability := best.2
    raw_confidence := best.1
    alternatives := alternatives }

/-! Auxiliary lemmas about the stable sort used by `interpret`. -/

/-- Inserting into any list commutes with filtering by an exact score
value: the inserted element lands in front of its tie class, which is
exactly where a newly prepended element would sit. -/
theorem filter_orderedInsert_score (q : ℚ) (a : ℚ × Capability) :
    ∀ s : List (ℚ × Capability),
      (List.orderedInsert scoreGE a s).filter (fun p => decide (p.1 = q)) =
        ((a :: s).filter (fun p => decide (p.1 = q)))
  | [] => rfl
  | b :: t => by
    by_cases hab : scoreGE a b
    · rw [List.orderedInsert, if_pos hab]
    · rw [List.orderedInsert, if_neg hab]
      have ih := filter_orderedInsert_score q a t
      have hlt : a.1 < b.1 := lt_of_not_le hab
      by_cases ha : a.1 = q <;> by_cases hb : b.1 = q
      · exact absurd (ha.trans hb.symm) (ne_of_lt hlt)
      · simp [List.filter, ha, hb, ih]
      · simp [List.filter, ha, hb, ih]
      · simp [List.filter, ha, hb, ih]

/-- Stability of the sort: for every score value `q`, the ties at `q`
appear in the sorted list in the same order as in the input. -/
theorem insertionSort_filter_score (q : ℚ) :
    ∀ l : List (ℚ × Capability),
      (List.insertionSort scoreGE l).filter (fun p => decide (p.1 = q)) =
        l.filter (fun p => decide (p.1 = q))
  | [] => rfl
  | a :: l => by
    rw [List.insertionSort, filter_orderedInsert_score]
    by_cases ha : a.1 = q <;>
      simp [List.filter, ha, insertionSort_filter_score q l]

/-- On a list sorted by descending score, keeping a prefix commutes with
filtering by a score threshold. -/
theorem take_filter_sorted_score (m : ℚ) :
    ∀ (t : List (ℚ × Capability)), t.Sorted scoreGE → ∀ n : ℕ,
      (t.take n).filter (fun p => decide (m ≤ p.1)) =
        ((t.filter (fun p => decide (m ≤ p.1))).take n)
  | [], _, _ => by simp
  | b :: t, hs, n => by
    cases n with
    | zero => simp
    | succ n =>
      by_cases hb : (fun p : ℚ × Capability => decide (m ≤ p.1)) b = true
      · rw [List.take_succ_cons,
          @List.filter_cons_of_pos _ (fun p => decide (m ≤ p.1)) b
            (List.take n t) hb,
          @List.filter_cons_of_pos _ (fun p => decide (m ≤ p.1)) b t hb,
          List.take_succ_cons, take_filter_sorted_score m t hs.of_cons n]
      · have hnil : t.filter (fun p => decide (m ≤ p.1)) = [] := by
          rw [List.filter_eq_nil_iff]
          intro x hx
          have hxb : x.1 ≤ b.1 := List.rel_of_sorted_cons hs x hx
          simp only [decide_eq_true_eq] at hb ⊢
          intro hmx
          exact hb (le_trans hmx hxb)
        have hnil' : (t.take n).filter (fun p => decide (m ≤ p.1)) = [] := by
          rw [List.filter_eq_nil_iff]
          intro x hx
          have hxt : x ∈ t := (List.take_sublist n t).subset hx
          exact (List.filter_eq_nil_iff.mp hnil) x hxt
        rw [List.take_succ_cons,
          @List.filter_cons_of_neg _ (fun p => decide (m ≤ p.1)) b
            (List.take n t) hb,
          @List.filter_cons_of_neg _ (fun p => decide (m ≤ p.1)) b t hb,
          hnil, hnil', List.take_nil]

/-- The first satisfying element is the head of the filtered list. -/
theorem find?_eq_head?_filter {α : Type} (p : α → Bool) :
    ∀ l : List α, l.find? p = (l.filter p).head?
  | [] => rfl
  | a :: l => by
    by_cases h : p a = true
    · rw [List.find?_cons_of_pos _ h, List.filter_cons_of_pos h]
      rfl
    · rw [List.find?_cons_of_neg _ h, List.filter_cons_of_neg h]
      exact find?_eq_head?_filter p l

/-- Searching a mapped list is mapping the search on the preimages. -/
theorem find?_map_eq {α β : Type} (f : α → β) (p : β → Bool) :
    ∀ l : List α, (l.map f).find? p = (l.find? (fun a => p (f a))).map f
  | [] => rfl
  | a :: l => by
    by_cases h : p (f a) = true
    · rw [List.map_cons, List.find?_cons_of_pos _ h,
        @List.find?_cons_of_pos _ (fun a => p (f a)) a l h]
      rfl
    · rw [List.map_cons, List.find?_cons_of_neg _ h,
        @List.find?_cons_of_neg _ (fun a => p (f a)) a l h]
      exact find?_map_eq f p l

/-- Unfolding of `interpret` once the sorted score vector is known to be
nonempty with head `s0`. -/
theorem interpret_eq (self : KeywordInterpreter) (intent : Str)
    (ctx : Context) (caps : List Capability) (s0 : ℚ × Capability)
    (rest : List (ℚ × Capability))
    (hS : List.insertionSort scoreGE (scored self intent caps) = s0 :: rest) :
    self.interpret intent ctx caps =
      { interpretation :=
          if self.min_score ≤ s0.1 then
            ("Execute ").toList ++ s0.2.id ++ (" for: ").toList ++ intent
          else ("No matching capability found").toList
        capability := if self.min_score ≤ s0.1 then some s0.2 else none
        raw_confidence := s0.1
        alternatives := ((rest.take 3).filter
            (fun p => decide (self.min_score ≤ p.1))).map mkAlternative } := by
  by_cases hmin : self.min_score ≤ s0.1 <;>
    simp [KeywordInterpreter.interpret, hS, hmin]

/-- C5: for every intent, context, and nonempty list of capabilities,
`interpret` selects the single highest-scoring capability — or none when
the top score is below `min_score` — with the earliest-listed capability
winning score ties (`find?` returns the first maximiser); its alternatives
are the next at most three entries of the ranking with scores at or above
`min_score`; and the ranking is sorted by score descending and stable: for
every score value the tied entries appear in input order. -/
theorem interpret_ranking_spec (self : KeywordInterpreter) (intent : Str)
    (ctx : Context) (caps : List Capability) (hne : caps ≠ []) :
    (∃ c ∈ caps, self.score (tokenize intent) c =
        (self.interpret intent ctx caps).raw_confidence) ∧
    (∀ c ∈ caps, self.score (tokenize intent) c ≤
        (self.interpret intent ctx caps).raw_confidence) ∧
    ((self.interpret intent ctx caps).capability =
      if self.min_score ≤ (self.interpret intent ctx caps).raw_confidence then
        caps.find? (fun c => decide (self.score (tokenize intent) c =
          (self.interpret intent ctx caps).raw_confidence))
      else none) ∧
    ((self.interpret intent ctx caps).alternatives =
      ((((List.insertionSort scoreGE (scored self intent caps)).drop 1).filter
          (fun p => decide (self.min_score ≤ p.1))).take 3).map
        mkAlternative) ∧
    (∀ q : ℚ, (List.insertionSort scoreGE (scored self intent caps)).filter
        (fun p => decide (p.1 = q)) =
      (scored self intent caps).filter (fun p => decide (p.1 = q))) ∧
    (List.insertionSort scoreGE (scored self intent caps)).Sorted scoreGE := by
  obtain ⟨s0, rest, hS⟩ : ∃ s0 rest,
      List.insertionSort scoreGE (scored self intent caps) = s0 :: rest := by
    cases hN : List.insertionSort scoreGE (scored self intent caps) with
    | nil =>
        exfalso
        have hl := List.length_insertionSort scoreGE (scored self intent caps)
        rw [hN] at hl
        have : caps.length = 0 := by
          simpa [scored] using hl.symm
        exact hne (List.length_eq_zero.mp this)
    | cons a l => exact ⟨a, l, rfl⟩
  have hperm : List.Perm (List.insertionSort scoreGE (scored self intent caps))
      (scored self intent caps) := List.perm_insertionSort _ _
  have hsorted : (List.insertionSort scoreGE (scored self intent caps)).Sorted
      scoreGE := List.sorted_insertionSort _ _
  have hmem0 : s0 ∈ scored self intent caps := by
    refine hperm.subset ?_
    rw [hS]
    exact List.mem_cons_self _ _
  obtain ⟨c0, hc0, hc0e⟩ : ∃ c ∈ caps,
      (self.score (tokenize intent) c, c) = s0 := by
    simpa [scored] using hmem0
  rw [interpret_eq self intent ctx caps s0 rest hS]
  refine ⟨?_, ?_, ?_, ?_, ?_, hsorted⟩
  · exact ⟨c0, hc0, by simpa using congrArg Prod.fst hc0e⟩
  · intro c hc
    have hmem : (self.score (tokenize intent) c, c) ∈
        List.insertionSort scoreGE (scored self intent caps) := by
      refine hperm.mem_iff.mpr ?_
      simp only [scored, List.mem_map]
      exact ⟨c, hc, rfl⟩
    rw [hS] at hmem
    rcases List.mem_cons.mp hmem with h | h
    · simp [← h]
    · have := List.rel_of_sorted_cons (hS ▸ hsorted) _ h
      simpa [scoreGE] using this
  · simp only
    by_cases hmin : self.min_score ≤ s0.1
    · rw [if_pos hmin, if_pos hmin]
      have hfindS : (scored self intent caps).find?
          (fun p => decide (p.1 = s0.1)) = some s0 := by
        rw [find?_eq_head?_filter, ← insertionSort_filter_score, hS]
        rw [@List.filter_cons_of_pos _ (fun p => decide (p.1 = s0.1)) s0 rest
          (by simp)]
        rfl
      rw [scored] at hfindS
      rw [find?_map_eq (fun cap => (self.score (tokenize intent) cap, cap))
        (fun p => decide (p.1 = s0.1)) caps] at hfindS
      obtain ⟨c, hc, hce⟩ := Option.map_eq_some'.mp hfindS
      have hc2 : c = s0.2 := by
        have := congrArg Prod.snd hce
        simpa using this
      rw [← hc2]
      rw [← hc]
    · rw [if_neg hmin, if_neg hmin]
  · simp only
    rw [hS, List.drop_one, List.tail_cons]
    rw [← take_filter_sorted_score self.min_score rest
      ((hS ▸ hsorted).of_cons) 3]
  · exact fun q => insertionSort_filter_score q _

/-- Witness for C5: the ranking specification instantiated on a singleton
capability list. -/
theorem interpret_ranking_spec_witness :
    ∃ c ∈ [exampleDupCap],
      KeywordInterpreter.score ⟨1, 1/5⟩ (tokenize ("alpha").toList) c =
        (KeywordInterpreter.interpret ⟨1, 1/5⟩ ("alpha").toList
          ⟨.transcript, [], []⟩ [exampleDupCap]).raw_confidence :=
  (interpret_ranking_spec ⟨1, 1/5⟩ ("alpha").toList ⟨.transcript, [], []⟩
    [exampleDupCap] (by simp)).1

/-! ### Message data model (`message.rs`) -/

/-- Authentication methods (`enum AuthMethod`). -/
inductive AuthMethod where
  | token
  | certificate
  | apiKey
  | none
deriving DecidableEq

/-- Sender identity (`struct Sender`). -/
structure Sender where
  id : Str
  auth_method : AuthMethod
deriving DecidableEq

/-- Client-specified constraints (`struct Constraints`). -/
structure Constraints where
  max_cost : Option ℚ
  privacy : Option Str
  timeout_ms : Option Nat
deriving DecidableEq

/-- Client request (`struct Request`); the timestamp is in integer
milliseconds. -/
structure Request where
  protocol_version : Str
  message_id : Uuid
  in_response_to : Option Uuid
  conversation_id : Uuid
  timestamp : Int
  sender : Sender
  intent : Str
  confidence : ℚ
  context : Context
  constraints : Option Constraints
  signature : Option Str
deriving DecidableEq

/-- Server interpretation summary (`struct Interpretation`). -/
structure Interpretation where
  text : Str
  confidence : ℚ
deriving DecidableEq

/-- Handler result payloads (`serde_json::Value`).  The protocol logic
never inspects these values; they are carried opaquely into
`action_metadata.result`. -/
inductive JsonValue where
  | null
  | bool (b : Bool)
  | num (q : ℚ)
  | str (s : Str)
deriving DecidableEq

/-- Per-action response payload (`struct ActionMetadata`). -/
structure ActionMetadata where
  result : Option JsonValue
  questions : Option (List Str)
  reason_code : Option RefusalCode
  reason : Option Str
deriving DecidableEq

/-- All-absent metadata (`Default for ActionMetadata`). -/
def ActionMetadata.default : ActionMetadata :=
  { result := none, questions := none, reason_code := none, reason := none }

/-- Alternative proposal on the wire (`struct Alternative`). -/
structure Alternative where
  interpretation : Str
  confidence : ℚ
  estimated_cost : Option ℚ
  capability_id : Str
deriving DecidableEq

/-- Responder identity (`struct Responder`). -/
structure Responder where
  id : Str
  capabilities : List Str
deriving DecidableEq

/-- Server response (`struct Response`). -/
structure Response where
  message_id : Uuid
  in_response_to : Uuid
  conversation_id : Uuid
  timestamp : Int
  responder : Responder
  interpretation : Interpretation
  action : Action
  action_metadata : Option ActionMetadata
  alternatives : Option (List Alternative)
  confidence : ℚ
deriving DecidableEq

/-- Response constructor (`Response::to_request`): correlates the response
with the request, generating a fresh message id (`fresh`) and stamping the
current time (`now`), with no metadata and no alternatives. -/
def Response.to_request (fresh : Uuid) (now : Int) (request : Request)
    (responder : Responder) (interpretation : Interpretation)
    (action : Action) (confidence : ℚ) : Response :=
  { message_id := fresh
    in_response_to := request.message_id
    conversation_id := request.conversation_id
    timestamp := now
    responder := responder
    interpretation := interpretation
    action := action
    action_metadata := none
    alternatives := none
    confidence := confidence }

/-! ### Server state automaton (`state.rs`) -/

/-- Server states (`enum ServerState`). -/
inductive ServerState where
  | received
  | validating
  | interpreting
  | deciding
  | negotiating
  | done
  | failed
deriving DecidableEq

/-- Terminal states (`ServerState::is_terminal`). -/
def ServerState.is_terminal : ServerState → Bool
  | .done => true
  | .failed => true
  | _ => false

/-- Legal targets (`ServerState::valid_transitions`). -/
def ServerState.valid_transitions : ServerState → List ServerState
  | .received => [.validating, .failed]
  | .validating => [.interpreting, .failed]
  | .interpreting => [.deciding, .failed]
  | .deciding => [.done, .negotiating, .failed]
  | .negotiating => [.received, .done, .failed]
  | .done => []
  | .failed => []

/-- Transition admissibility (`ServerState::can_transition_to`). -/
def ServerState.can_transition_to (s target : ServerState) : Bool :=
  s.valid_transitions.contains target

/-- Server events (`enum ServerEvent`). -/
inductive ServerEvent where
  | requestReceived
  | validationPassed
  | validationFailed (msg : Str)
  | interpretationComplete (confidence : ℚ)
  | decisionExecute
  | decisionClarify
  | decisionPropose
  | decisionRefuse
  | clientResponded
  | actionCompleted
  | error (msg : Str)
deriving DecidableEq

/-- Debug rendering of a state (derive(Debug) on `ServerState`), used only
inside error message payloads. -/
def ServerState.debugStr : ServerState → Str
  | .received => ("Received").toList
  | .validating => ("Validating").toList
  | .interpreting => ("Interpreting").toList
  | .deciding => ("Deciding").toList
  | .negotiating => ("Negotiating").toList
  | .done => ("Done").toList
  | .failed => ("Failed").toList

/-- Debug rendering of an event (derive(Debug) on `ServerEvent`), used
only inside error message payloads; the numeric rendering of the
`InterpretationComplete` confidence differs textually from Rust's float
formatting, and no claim inspects these strings. -/
def ServerEvent.debugStr : ServerEvent → Str
  | .requestReceived => ("RequestReceived").toList
  | .validationPassed => ("ValidationPassed").toList
  | .validationFailed msg =>
      ("ValidationFailed(\"").toList ++ msg ++ ("\")").toList
  | .interpretationComplete c =>
      ("InterpretationComplete \x7b confidence: ").toList ++
        (toString c).toList ++ (" \x7d").toList
  | .decisionExecute => ("DecisionExecute").toList
  | .decisionClarify => ("DecisionClarify").toList
  | .decisionPropose => ("DecisionPropose").toList
  | .decisionRefuse => ("DecisionRefuse").toList
  | .clientResponded => ("ClientResponded").toList
  | .actionCompleted => ("ActionCompleted").toList
  | .error msg => ("Error(\"").toList ++ msg ++ ("\")").toList

/-! ### Capability registry (`sinp-server/src/capability.rs`) -/

/-- A registered capability with its handler and clamped reliability
(`struct RegisteredCapability`). -/
structure RegisteredCapability where
  capability : Capability
  handler : Request → Except SinpError JsonValue
  reliability : ℚ

/-- The registry (`struct CapabilityRegistry`).  The Rust `HashMap` keyed
by capability id is modelled as an association list (iteration order of a
`HashMap` is arbitrary; no claim depends on it), and the boxed `dyn`
interpreter by its default concrete implementation, the keyword
interpreter. -/
structure CapabilityRegistry where
  entries : List (Str × RegisteredCapability)
  interpreter : KeywordInterpreter

/-- Map lookup by capability id. -/
def CapabilityRegistry.find (reg : CapabilityRegistry) (id : Str) :
    Option RegisteredCapability :=
  (reg.entries.find? (fun e => decide (e.1 = id))).map (fun e => e.2)

/-- Reliability lookup (`CapabilityRegistry::get_reliability`): the
registered value, or 0.0 for an unknown id. -/
def CapabilityRegistry.get_reliability (reg : CapabilityRegistry)
    (id : Str) : ℚ :=
  ((reg.find id).map (fun r => r.reliability)).getD 0

/-- Policy stub (`CapabilityRegistry::check_policy`): always true. -/
def CapabilityRegistry.check_policy (_reg : CapabilityRegistry)
    (_request : Request) : Bool :=
  true

/-- All capability ids (`CapabilityRegistry::capability_ids`). -/
def CapabilityRegistry.capability_ids (reg : CapabilityRegistry) :
    List Str :=
  reg.entries.map (fun e => e.1)

/-- Interpret an intent over the registered capabilities
(`CapabilityRegistry::interpret`). -/
def CapabilityRegistry.interpret (reg : CapabilityRegistry) (intent : Str)
    (context : Context) : InterpretationResult :=
  reg.interpreter.interpret intent context
    (reg.entries.map (fun e => e.2.capability))

/-- Execute a capability handler (`CapabilityRegistry::execute`). -/
def CapabilityRegistry.execute (reg : CapabilityRegistry) (id : Str)
    (request : Request) : Except SinpError JsonValue :=
  match reg.find id with
  | none => .error (.protocol (("Capability not found: ").toList ++ id))
  | some r => r.handler request

/-! ### Server state machine (`sinp-server/src/state_machine.rs`) -/

/-- Server configuration (`struct ServerConfig`); the bind address, TLS
paths and socket timeouts are transport-only and outside every claim. -/
structure ServerConfig where
  thresholds : Thresholds
  replay_window_ms : Int
  max_message_size : Nat
deriving DecidableEq

/-- Per-conversation machine (`struct ServerStateMachine`). -/
structure ServerStateMachine where
  state : ServerState
  config : ServerConfig
  conversation_id : Option Uuid
  last_message_id : Option Uuid
deriving DecidableEq

/-- Fresh machine (`ServerStateMachine::new`). -/
def ServerStateMachine.new (config : ServerConfig) : ServerStateMachine :=
  { state := .received, config := config, conversation_id := none,
    last_message_id := none }

/-- Reset for a new conversation (`ServerStateMachine::reset`). -/
def ServerStateMachine.reset (m : ServerStateMachine) : ServerStateMachine :=
  { m with
    state := .received
    conversation_id := none
    last_message_id := none }

/-- One transition step (`ServerStateMachine::transition`): the event is
mapped to a target state by the legal-transition table (falling through to
a protocol error), and the target is re-checked against
`can_transition_to` before being installed. -/
def transition (m : ServerStateMachine) (event : ServerEvent) :
    Except SinpError ServerStateMachine :=
  let new_state? : Option ServerState :=
    match m.state, event with
    | .received, .requestReceived => some .validating
    | .validating, .validationPassed => some .interpreting
    | .validating, .validationFailed _ => some .failed
    | .interpreting, .interpretationComplete _ => some .deciding
    | .deciding, .decisionExecute => some .done
    | .deciding, .decisionClarify => some .negotiating
    | .deciding, .decisionPropose => some .negotiating
    | .deciding, .decisionRefuse => some .done
    | .done, .actionCompleted => some .done
    | .negotiating, .clientResponded => some .received
    | _, .error _ => some .failed
    | _, _ => none
  match new_state? with
  | none =>
      .error (.protocol (("Invalid transition from ").toList ++
        m.state.debugStr ++ (" on ").toList ++ event.debugStr))
  | some new_state =>
      if m.state.can_transition_to new_state then
        .ok { m with state := new_state }
      else
        .error (.protocol (("Invalid state transition: ").toList ++
          m.state.debugStr ++ (" -> ").toList ++ new_state.debugStr))

/-- The repeated validation-failure pattern inside `process_request`:
transition on `ValidationFailed` (propagating a transition error as the
code's `?` does) and return the original error. -/
def fail_validation (m : ServerStateMachine) (e : SinpError) :
    Except SinpError Response × ServerStateMachine :=
  match transition m (.validationFailed e.toStr) with
  | .error e2 => (.error e2, m)
  | .ok m2 => (.error e, m2)

/-- The per-action metadata block of `process_request` (the `match action`
arms): each arm performs its decision transition; the EXECUTE arm then
runs the capability handler, whose failure propagates. -/
def build_action_metadata (reg : CapabilityRegistry) (request : Request)
    (ir : InterpretationResult) (policy_passed : Bool)
    (m : ServerStateMachine) (action : Action) :
    Except SinpError ActionMetadata × ServerStateMachine :=
  match action with
  | .execute =>
    match transition m .decisionExecute with
    | .error e => (.error e, m)
    | .ok m5 =>
      match ir.capability with
      | some cap =>
        match reg.execute cap.id request with
        | .error e => (.error e, m5)
        | .ok result =>
            (.ok { ActionMetadata.default with result := some result }, m5)
      | none =>
          (.ok { ActionMetadata.default with
            result := some JsonValue.null }, m5)
  | .clarify =>
    match transition m .decisionClarify with
    | .error e => (.error e, m)
    | .ok m5 =>
        (.ok { ActionMetadata.default with
          questions := some [("Could you provide more details?").toList,
            ("What specific action would you like?").toList] }, m5)
  | .propose =>
    match transition m .decisionPropose with
    | .error e => (.error e, m)
    | .ok m5 => (.ok ActionMetadata.default, m5)
  | .refuse =>
    match transition m .decisionRefuse with
    | .error e => (.error e, m)
    | .ok m5 =>
      let code :=
        if !policy_passed then RefusalCode.policyViolation
        else if ir.capability.isNone then RefusalCode.capabilityMissing
        else RefusalCode.malformedContext
      (.ok { ActionMetadata.default with
        reason_code := some code
        reason := some (("Request refused: ").toList ++ code.toStr) }, m5)

/-- Final assembly of the response inside `process_request`: attach the
action metadata to the `Response::to_request` base, and, exactly when the
action is PROPOSE, attach the serialised alternatives. -/
def finalize_response (fresh : Uuid) (now : Int) (request : Request)
    (responder : Responder) (interpretation : Interpretation)
    (action : Action) (phi_s : ℚ) (alts : List AlternativeInterpretation)
    (md : ActionMetadata) : Response :=
  let response := Response.to_request fresh now request responder
    interpretation action phi_s
  let response1 := { response with action_metadata := some md }
  if action = .propose then
    { response1 with
      alternatives := some (alts.map (fun alt =>
        Alternative.mk alt.interpretation alt.confidence
          (some alt.capability.cost_units) alt.capability.id)) }
  else response1

/-- Tail of `process_request` after validation succeeded: interpret,
compose the server confidence, decide, build and finalise the response. -/
def process_validated (now : Int) (fresh : Uuid) (reg : CapabilityRegistry)
    (m : ServerStateMachine) (request : Request) :
    Except SinpError Response × ServerStateMachine :=
  match transition m .validationPassed with
  | .error e => (.error e, m)
  | .ok m3 =>
    let ir := reg.interpret request.intent request.context
    match transition m3 (.interpretationComplete ir.raw_confidence) with
    | .error e => (.error e, m3)
    | .ok m4 =>
      let phi_policy : ℚ × Bool :=
        match ir.capability with
        | some cap =>
          let reliability := reg.get_reliability cap.id
          let availability : ℚ := 1
          let policy := reg.check_policy request
          (compute_server_confidence ir.raw_confidence reliability
            availability policy, policy)
        | none => (0, true)
      let phi_s := phi_policy.1
      let policy_passed := phi_policy.2
      let has_alternatives := !ir.alternatives.isEmpty
      let action := decide_action phi_s request.confidence
        m4.config.thresholds
        (has_alternatives && decide (phi_s < m4.config.thresholds.tau_exec))
        (!policy_passed) false
      let responder : Responder :=
        ⟨("sinp-server").toList, reg.capability_ids⟩
      let interpretation : Interpretation := ⟨ir.interpretation, phi_s⟩
      match build_action_metadata reg request ir policy_passed m4 action with
      | (.error e, m5) => (.error e, m5)
      | (.ok md, m5) =>
        let response2 := finalize_response fresh now request responder
          interpretation action phi_s ir.alternatives md
        (.ok response2, { m5 with last_message_id := some response2.message_id })

/-- Request processing (`ServerStateMachine::process_request`): receive,
validate (replay window, conversation continuity, follow-up correlation),
then interpret / decide / act via `process_validated`.  `now` and `fresh`
stand for the wall clock and the generated response UUID. -/
def process_request (now : Int) (fresh : Uuid) (reg : CapabilityRegistry)
    (m : ServerStateMachine) (request : Request) :
    Except SinpError Response × ServerStateMachine :=
  match transition m .requestReceived with
  | .error e => (.error e, m)
  | .ok m1 =>
    match check_replay now request.timestamp
        (some m1.config.replay_window_ms) with
    | .error e => fail_validation m1 e
    | .ok _ =>
      let continuity : Option (Except SinpError Response ×
          ServerStateMachine) × ServerStateMachine :=
        match m1.conversation_id with
        | some cid =>
          if request.conversation_id ≠ cid then
            (some (fail_validation m1
              (SinpError.validation ("Conversation ID mismatch").toList)), m1)
          else (none, m1)
        | none =>
            (none, { m1 with conversation_id := some request.conversation_id })
      match continuity with
      | (some out, _) => out
      | (none, m2) =>
        if m2.last_message_id.isSome && request.in_response_to.isNone then
          fail_validation m2
            (SinpError.validation ("Missing in_response_to for follow-up").toList)
        else
          process_validated now fresh reg m2 request

/-! ### Connection handler (`sinp-server/src/handler.rs`) -/

/-- Synthetic error response (`create_error_response`): a REFUSE with
`reason_code = malformed_context` correlated to the failing request. -/
def create_error_response (fresh : Uuid) (now : Int) (request : Request)
    (error : SinpError) : Response :=
  { message_id := fresh
    in_response_to := request.message_id
    conversation_id := request.conversation_id
    timestamp := now
    responder := ⟨("sinp-server").toList, []⟩
    interpretation := ⟨("Error processing request").toList, 0⟩
    action := .refuse
    action_metadata := some { ActionMetadata.default with
      reason_code := some RefusalCode.malformedContext
      reason := some error.toStr }
    alternatives := none
    confidence := 0 }

/-- Outcome of one iteration of the `handle_stream` read loop: either the
function returns an error — the connection is terminated with no reply —
or a response is written and the loop continues with the given machine. -/
inductive FrameOutcome where
  | closed (e : SinpError)
  | replied (response : Response) (machine : ServerStateMachine)

/-- One iteration of `Server::handle_stream` after a length prefix has
been read: enforce `max_message_size`, parse the body, process the
request; a processing error is answered with a synthetic error response
followed by a state machine reset, a successful response is sent and the
machine reset only from terminal states.  `fresh` and `fresh_err` stand
for the response UUIDs generated on the two paths. -/
def handle_frame (now : Int) (fresh fresh_err : Uuid)
    (reg : CapabilityRegistry) (m : ServerStateMachine) (len : Nat)
    (payload : Except Str Request) : FrameOutcome :=
  if len > m.config.max_message_size then
    .closed (.validation (("Message too large: ").toList ++
      (toString len).toList ++ (" > ").toList ++
      (toString m.config.max_message_size).toList))
  else
    match payload with
    | .error msg => .closed (.serialization msg)
    | .ok request =>
      match process_request now fresh reg m request with
      | (.ok response, m') =>
          .replied response (if m'.state.is_terminal then m'.reset else m')
      | (.error e, m') =>
          .replied (create_error_response fresh_err now request e) m'.reset

/-- Discriminator telling whether a frame produced a reply. -/
def FrameOutcome.isReplied : FrameOutcome → Bool
  | .replied _ _ => true
  | .closed _ => false

/-! ### Helper lemmas about the response pipeline -/

/-- The finalised response stays correlated to its request. -/
theorem finalize_response_correlation (fresh : Uuid) (now : Int)
    (request : Request) (responder : Responder)
    (interpretation : Interpretation) (action : Action) (phi_s : ℚ)
    (alts : List AlternativeInterpretation) (md : ActionMetadata) :
    (finalize_response fresh now request responder interpretation action
        phi_s alts md).in_response_to = request.message_id ∧
    (finalize_response fresh now request responder interpretation action
        phi_s alts md).conversation_id = request.conversation_id := by
  by_cases h : action = .propose <;>
    simp [finalize_response, Response.to_request, h]

/-- The finalised response carries the decided action. -/
theorem finalize_response_action (fresh : Uuid) (now : Int)
    (request : Request) (responder : Responder)
    (interpretation : Interpretation) (action : Action) (phi_s : ℚ)
    (alts : List AlternativeInterpretation) (md : ActionMetadata) :
    (finalize_response fresh now request responder interpretation action
        phi_s alts md).action = action := by
  by_cases h : action = .propose <;>
    simp [finalize_response, Response.to_request, h]

/-- Alternatives are attached exactly on PROPOSE. -/
theorem finalize_response_alternatives (fresh : Uuid) (now : Int)
    (request : Request) (responder : Responder)
    (interpretation : Interpretation) (action : Action) (phi_s : ℚ)
    (alts : List AlternativeInterpretation) (md : ActionMetadata) :
    (finalize_response fresh now request responder interpretation action
        phi_s alts md).alternatives =
      if action = .propose then
        some (alts.map (fun alt =>
          Alternative.mk alt.interpretation alt.confidence
            (some alt.capability.cost_units) alt.capability.id))
      else none := by
  by_cases h : action = .propose <;>
    simp [finalize_response, Response.to_request, h]

/-- The decision function only proposes when a better alternative was
signalled. -/
theorem decide_action_propose_imp (phi_s phi_c : ℚ)
    (thresholds : Thresholds) (hba pv mf : Bool)
    (h : decide_action phi_s phi_c thresholds hba pv mf = .propose) :
    hba = true := by
  unfold decide_action at h
  split_ifs at h
  all_goals simp_all

/-- Every successful result of the post-validation stage is a finalised
response for the decided action over the interpreter's output. -/
theorem process_validated_ok_shape (now : Int) (fresh : Uuid)
    (reg : CapabilityRegistry) (m2 : ServerStateMachine) (request : Request)
    (resp : Response) (m' : ServerStateMachine)
    (h : process_validated now fresh reg m2 request = (.ok resp, m')) :
    ∃ (phi_s : ℚ) (thr : Thresholds) (pv : Bool) (md : ActionMetadata),
      resp = finalize_response fresh now request
        ⟨("sinp-server").toList, reg.capability_ids⟩
        ⟨(reg.interpret request.intent request.context).interpretation,
          phi_s⟩
        (decide_action phi_s request.confidence thr
          ((!(reg.interpret request.intent
              request.context).alternatives.isEmpty) &&
            decide (phi_s < thr.tau_exec))
          pv false)
        phi_s (reg.interpret request.intent request.context).alternatives
        md := by
  unfold process_validated at h
  dsimp only at h
  split at h
  · simp at h
  · split at h
    · simp at h
    · split at h
      · simp at h
      · simp only [Prod.mk.injEq, Except.ok.injEq] at h
        exact ⟨_, _, _, _, h.1.symm⟩

/-- Every successful result of `process_request` comes from the
post-validation stage run on some machine. -/
theorem process_request_ok_shape (now : Int) (fresh : Uuid)
    (reg : CapabilityRegistry) (m : ServerStateMachine) (request : Request)
    (resp : Response) (m' : ServerStateMachine)
    (h : process_request now fresh reg m request = (.ok resp, m')) :
    ∃ m2 : ServerStateMachine,
      process_validated now fresh reg m2 request = (.ok resp, m') := by
  unfold process_request at h
  dsimp only at h
  split at h
  · simp at h
  · split at h
    · unfold fail_validation at h
      split at h <;> simp at h
    · split at h
      · rename_i out snd heq
        split at heq
        · split at heq
          · simp only [Prod.mk.injEq, Option.some.injEq] at heq
            rw [← heq.1] at h
            unfold fail_validation at h
            split at h <;> simp at h
          · simp at heq
        · simp at heq
      · rename_i m2 heq
        split at h
        · unfold fail_validation at h
          split at h <;> simp at h
        · exact ⟨_, h⟩

/-! ### Claims about the request pipeline -/

/-- C6: for every response produced by the server's request pipeline, if
the action is PROPOSE the alternatives field is present and non-empty, and
if the action is not PROPOSE the alternatives field is absent. -/
theorem propose_alternatives_invariant (now : Int) (fresh : Uuid)
    (reg : CapabilityRegistry) (m : ServerStateMachine) (request : Request) :
    ∀ resp m', process_request now fresh reg m request = (.ok resp, m') →
      (resp.action = .propose →
        ∃ alts, resp.alternatives = some alts ∧ alts ≠ []) ∧
      (resp.action ≠ .propose → resp.alternatives = none) := by
  intro resp m' h
  obtain ⟨m2, h2⟩ := process_request_ok_shape now fresh reg m request resp m' h
  obtain ⟨phi_s, thr, pv, md, hresp⟩ :=
    process_validated_ok_shape now fresh reg m2 request resp m' h2
  subst hresp
  constructor
  · intro hact
    rw [finalize_response_action] at hact
    refine ⟨_, by rw [finalize_response_alternatives, if_pos hact], ?_⟩
    have hba := decide_action_propose_imp _ _ _ _ _ _ hact
    have hne : (reg.interpret request.intent
        request.context).alternatives ≠ [] := by
      rcases (Bool.and_eq_true _ _).mp hba with ⟨h1, _⟩
      intro hnil
      rw [hnil] at h1
      simp at h1
    simp only [ne_eq, List.map_eq_nil_iff]
    exact hne
  · intro hact
    rw [finalize_response_action] at hact
    rw [finalize_response_alternatives, if_neg hact]

/-- C8: every response the server sends for a request — both pipeline
responses and synthetic error responses — carries
`in_response_to = request.message_id` and the request's conversation id. -/
theorem response_correlation_invariant (now : Int) (fresh fresh_err : Uuid)
    (reg : CapabilityRegistry) (m : ServerStateMachine) (request : Request)
    (e : SinpError) :
    (∀ resp m', process_request now fresh reg m request = (.ok resp, m') →
      resp.in_response_to = request.message_id ∧
      resp.conversation_id = request.conversation_id) ∧
    ((create_error_response fresh_err now request e).in_response_to =
        request.message_id ∧
      (create_error_response fresh_err now request e).conversation_id =
        request.conversation_id) := by
  refine ⟨?_, rfl, rfl⟩
  intro resp m' h
  obtain ⟨m2, h2⟩ := process_request_ok_shape now fresh reg m request resp m' h
  obtain ⟨phi_s, thr, pv, md, hresp⟩ :=
    process_validated_ok_shape now fresh reg m2 request resp m' h2
  subst hresp
  exact finalize_response_correlation _ _ _ _ _ _ _ _ _

/-- C9: for every capability id not registered in the registry,
`get_reliability` returns 0.0 — so a request matched to an unknown
capability composes a server confidence of 0 — rather than failing. -/
theorem unknown_capability_zero_reliability (reg : CapabilityRegistry)
    (id : Str) (h : ∀ e ∈ reg.entries, e.1 ≠ id) (rho availability : ℚ)
    (policy : Bool) :
    reg.get_reliability id = 0 ∧
    compute_server_confidence rho (reg.get_reliability id) availability
      policy = 0 := by
  have hfind : reg.entries.find? (fun e => decide (e.1 = id)) = none := by
    rw [List.find?_eq_none]
    intro x hx
    simp [h x hx]
  have hrel : reg.get_reliability id = 0 := by
    simp [CapabilityRegistry.get_reliability, CapabilityRegistry.find, hfind]
  refine ⟨hrel, ?_⟩
  rw [hrel]
  cases policy
  · simp [compute_server_confidence]
  · simp [compute_server_confidence]

/-- Witness for C9: an unknown id against the empty registry. -/
theorem unknown_capability_zero_reliability_witness :
    (⟨[], KeywordInterpreter.default⟩ :
        CapabilityRegistry).get_reliability (("missing").toList) = 0 ∧
    compute_server_confidence 1
      ((⟨[], KeywordInterpreter.default⟩ :
        CapabilityRegistry).get_reliability (("missing").toList)) 1 true =
      0 :=
  unknown_capability_zero_reliability ⟨[], KeywordInterpreter.default⟩
    (("missing").toList) (by simp) 1 1 true

/-! ### Concrete fixtures used by the remaining witnesses -/

/-- A registry with no capabilities. -/
def emptyRegistry : CapabilityRegistry := ⟨[], KeywordInterpreter.default⟩

/-- A configuration with integer-valued thresholds (so that every
comparison reduces inside the kernel). -/
def sampleConfig : ServerConfig :=
  { thresholds := ⟨1, 1, 1⟩, replay_window_ms := 5000,
    max_message_size := 1024 }

/-- A fresh machine over `sampleConfig`. -/
def sampleMachine : ServerStateMachine := ServerStateMachine.new sampleConfig

/-- A well-formed initial request at timestamp 0. -/
def sampleRequest : Request :=
  { protocol_version := ("0.1").toList
    message_id := 1
    in_response_to := none
    conversation_id := 2
    timestamp := 0
    sender := ⟨("client").toList, .token⟩
    intent := ("hello").toList
    confidence := 0
    context := ⟨.transcript, [], []⟩
    constraints := none
    signature := none }

/-- The same request stamped 10 seconds in the past, which the replay
check rejects under the 5000 ms window. -/
def replayRequest : Request := { sampleRequest with timestamp := -10000 }

/-- The response the pipeline produces for `sampleRequest` against the
empty registry: no capability matches, so the action is CLARIFY with the
two default questions. -/
def sampleResponse : Response :=
  { message_id := 7
    in_response_to := 1
    conversation_id := 2
    timestamp := 0
    responder := ⟨("sinp-server").toList, []⟩
    interpretation := ⟨("No matching capability found").toList, 0⟩
    action := .clarify
    action_metadata := some
      { result := none
        questions := some [("Could you provide more details?").toList,
          ("What specific action would you like?").toList]
        reason_code := none
        reason := none }
    alternatives := none
    confidence := 0 }

/-- The machine state after the `sampleRequest` exchange: negotiating,
with the conversation and last message recorded. -/
def sampleMachineAfter : ServerStateMachine :=
  { state := .negotiating, config := sampleConfig, conversation_id := some 2,
    last_message_id := some 7 }

/-- Witness for C6: the CLARIFY response of the concrete run. -/
theorem propose_alternatives_invariant_witness :
    (sampleResponse.action = .propose →
      ∃ alts, sampleResponse.alternatives = some alts ∧ alts ≠ []) ∧
    (sampleResponse.action ≠ .propose →
      sampleResponse.alternatives = none) :=
  propose_alternatives_invariant 0 7 emptyRegistry sampleMachine
    sampleRequest sampleResponse sampleMachineAfter rfl

/-- Witness for C8: correlation of the concrete run's response. -/
theorem response_correlation_invariant_witness :
    sampleResponse.in_response_to = sampleRequest.message_id ∧
    sampleResponse.conversation_id = sampleRequest.conversation_id :=
  (response_correlation_invariant 0 7 8 emptyRegistry sampleMachine
    sampleRequest .signatureInvalid).1 sampleResponse sampleMachineAfter rfl

/-- C3 counterexample: a frame whose length prefix exceeds
`max_message_size` raises a `SinpError::Validation` error — a validation
failure in the cited request-handling loop — yet the connection is closed
with no synthetic REFUSE reply ever sent, contradicting the claim that
every validation failure produces a synthetic REFUSE and preserves the
connection. -/
theorem oversize_frame_closes_connection :
    handle_frame 0 7 8 emptyRegistry sampleMachine 1025 (.ok sampleRequest) =
      .closed (.validation (("Message too large: ").toList ++
        (toString (1025 : Nat)).toList ++ (" > ").toList ++
        (toString (1024 : Nat)).toList)) ∧
    (handle_frame 0 7 8 emptyRegistry sampleMachine 1025
        (.ok sampleRequest)).isReplied = false := by
  exact ⟨rfl, rfl⟩

/-- C3 (amended): every failure signalled by `process_request` — the
replay, conversation-continuity and follow-up validation failures, state
machine protocol errors, and capability-handler failures — is answered
with a synthetic REFUSE response carrying
`reason_code = malformed_context`, after which the state machine is reset
and the server keeps reading frames on the same connection.  (No crypto
failure can arise in this pipeline: the server never invokes signature
verification.)  Frame-level failures — an oversize length prefix or an
unparseable body — instead terminate the connection without a reply. -/
theorem pipeline_error_synthetic_refuse (now : Int) (fresh fresh_err : Uuid)
    (reg : CapabilityRegistry) (m : ServerStateMachine) (len : Nat)
    (request : Request) (e : SinpError) (m' : ServerStateMachine)
    (hlen : len ≤ m.config.max_message_size)
    (hproc : process_request now fresh reg m request = (.error e, m')) :
    handle_frame now fresh fresh_err reg m len (.ok request) =
      .replied (create_error_response fresh_err now request e) m'.reset ∧
    (create_error_response fresh_err now request e).action = .refuse ∧
    ((create_error_response fresh_err now request e).action_metadata.map
      (fun md => md.reason_code)) = some (some .malformedContext) ∧
    m'.reset.state = .received ∧
    m'.reset.conversation_id = none ∧
    m'.reset.last_message_id = none := by
  refine ⟨?_, rfl, rfl, rfl, rfl, rfl⟩
  unfold handle_frame
  rw [if_neg (not_lt.mpr hlen)]
  simp only [hproc]

/-- Witness for C3 (amended): the replay-rejected request is answered
with the synthetic REFUSE and the machine is reset. -/
theorem pipeline_error_synthetic_refuse_witness :
    handle_frame 0 7 8 emptyRegistry sampleMachine 10 (.ok replayRequest) =
      .replied (create_error_response 8 0 replayRequest
          (.replayDetected (toString (-10000 : Int)).toList))
        ({ state := .failed, config := sampleConfig, conversation_id := none,
            last_message_id := none } : ServerStateMachine).reset ∧
    (create_error_response 8 0 replayRequest
        (.replayDetected (toString (-10000 : Int)).toList)).action =
      .refuse ∧
    ((create_error_response 8 0 replayRequest
        (.replayDetected (toString (-10000 : Int)).toList)).action_metadata.map
      (fun md => md.reason_code)) = some (some .malformedContext) ∧
    ({ state := .failed, config := sampleConfig, conversation_id := none,
        last_message_id := none } : ServerStateMachine).reset.state =
      .received ∧
    ({ state := .failed, config := sampleConfig, conversation_id := none,
        last_message_id := none } :
      ServerStateMachine).reset.conversation_id = none ∧
    ({ state := .failed, config := sampleConfig, conversation_id := none,
        last_message_id := none } :
      ServerStateMachine).reset.last_message_id = none :=
  pipeline_error_synthetic_refuse 0 7 8 emptyRegistry sampleMachine 10
    replayRequest (.replayDetected (toString (-10000 : Int)).toList)
    { state := .failed, config := sampleConfig, conversation_id := none,
      last_message_id := none }
    (by decide) rfl

end SINP
